import Mathlib

/-!
Shallow embedding of the command-dispatch core of the kook-ts-cordis
repository: the argv tokenizer, the command-signature parsing done by the
`CommandInstance` constructor and `CommandInstance.execute` (from the
command module concatenated into `src/bot.ts`), and the command registry
plus the message middleware `setupCommandParser` from
`src/services/commander/commander.ts`.

Modelling conventions:
* JS strings are Lean `String`s; character scans walk `String.data`.
* A thrown JS error is `Except.error`; a normally resolving async
  function is `Except.ok`.
* Commands are modelled with an empty flag schema: under an empty schema
  the external type-flag package returns every token of the tokenized
  input as a positional in `argv._`, so flag extraction is the identity
  on the token list.  No claim exercises declared flags.
* Map iteration order in JS is insertion order, so the registry is a
  list of entries.
-/

/-- A normalized inbound message session: exactly the fields the
dispatcher reads (`session.data.content`, `session.channelId`,
`session.data.msg_id`, `session.data.extra.author.avatar`). -/
structure Session where
  content : String
  channelId : String
  msgId : String
  avatar : String
  deriving DecidableEq

/-- One outbound `bot.sendMessage(channelId, content, options)` call:
`quote` is `options.quote` when present and `card` records whether
`options.type` was `MessageType.card`. -/
structure SentMessage where
  channelId : String
  content : String
  quote : Option String
  card : Bool
  deriving DecidableEq

/-- Character-by-character scanner loop of `parseArgsStringToArgv`
(src/bot.ts): with `escape` set the character is appended verbatim; a
backslash sets `escape`; a double quote toggles `inQuotes` without being
emitted; an unquoted space flushes the current token when it is
non-empty; every other character accumulates.  The trailing non-empty
token is flushed at end of input. -/
def tokenizeAux : List Char → Bool → Bool → List Char → List String → List String
  | [], _, _, arg, args => if arg.isEmpty then args else args ++ [⟨arg⟩]
  | c :: cs, inQuotes, escapeFlag, arg, args =>
    if escapeFlag then tokenizeAux cs inQuotes false (arg ++ [c]) args
    else if c = '\\' then tokenizeAux cs inQuotes true arg args
    else if c = '\"' then tokenizeAux cs (!inQuotes) false arg args
    else if c = ' ' ∧ inQuotes = false then
      (if arg.isEmpty then tokenizeAux cs inQuotes false [] args
       else tokenizeAux cs inQuotes false [] (args ++ [⟨arg⟩]))
    else tokenizeAux cs inQuotes false (arg ++ [c]) args

/-- `parseArgsStringToArgv(value)` from src/bot.ts. -/
def parseArgsStringToArgv (value : String) : List String :=
  tokenizeAux value.data false false [] []

/-- Left-to-right scanner equivalent to matching the global regexes
`/<[^>]+>/g` and `/\[[^\]]+\]/g` of the `CommandInstance` constructor:
collect each group `op`, one or more non-`cl` characters, `cl`
(delimiters included), skip a group with empty content, and stop when an
opened group is never closed (no `cl` remains). -/
def bracketScan (op cl : Char) : List Char → Option (List Char) → List String
  | [], _ => []
  | c :: cs, none =>
    if c = op then bracketScan op cl cs (some []) else bracketScan op cl cs none
  | c :: cs, some acc =>
    if c = cl then
      (if acc.isEmpty then bracketScan op cl cs none
       else (⟨op :: (acc.reverse ++ [cl])⟩ : String) :: bracketScan op cl cs none)
    else bracketScan op cl cs (some (c :: acc))

/-- A command handler (the callback installed by `action`).  It receives
the bound positional-parameter mapping (the part of the merged argument
object the claims are about); `.error` models a thrown error and `.ok`
the `void | string` return. -/
def Handler : Type := List (String × String) → Except String (Option String)

/-- The data of one registered command (src/bot.ts `CommandInstance`).
`requiredMatches` and `optionalMatches` hold the raw regex matches,
brackets included, exactly as the constructor stores them. -/
structure CommandInstance where
  name : String
  description : String
  /-- Modelled from the spec: the spec's data model gives every
  `CommandInstance` a set of alternate tokens `aliases`, and
  commander.ts reads `obj.aliases` during matching and
  `item.aliases` when building the suggestion card, but the definition
  of the field is absent from the src snapshot of the command module. -/
  aliases : List String
  requiredMatches : List String
  optionalMatches : List String
  commandFunction : Handler

/-- The `CommandInstance` constructor: `index = name.indexOf(' ')`,
`this.name = name.substring(0, index)`, and the parameter matches are
collected from `others = name.substring(index)`.  When the declaration
has no space, JS `indexOf` yields `-1`, `substring(0, -1)` clamps to the
empty string and `substring(-1)` clamps to the whole string.  The
`aliases` and handler arguments stand for the parts of registration not
present in the src snapshot (see `CommandInstance.aliases`). -/
def CommandInstance.create (nm descr : String) (aliases : List String)
    (f : Handler) : CommandInstance :=
  match nm.data.findIdx? (· == ' ') with
  | some i =>
    { name := ⟨nm.data.take i⟩
      description := descr
      aliases := aliases
      requiredMatches := bracketScan '<' '>' (nm.data.drop i) none
      optionalMatches := bracketScan '[' ']' (nm.data.drop i) none
      commandFunction := f }
  | none =>
    { name := ""
      description := descr
      aliases := aliases
      requiredMatches := bracketScan '<' '>' nm.data none
      optionalMatches := bracketScan '[' ']' nm.data none
      commandFunction := f }

/-- JS `s.slice(1, -1)`: drop the first and the last character (used to
strip the brackets from a stored parameter match). -/
def stripBrackets (s : String) : String := ⟨(s.data.drop 1).dropLast⟩

/-- JS property assignment `params[k] = v` on an object represented as
an insertion-ordered association list: overwrite the existing key in
place, otherwise append. -/
def setParam (ps : List (String × String)) (k v : String) :
    List (String × String) :=
  if ps.any (fun p => p.1 == k) then
    ps.map (fun p => if p.1 == k then (k, v) else p)
  else ps ++ [(k, v)]

/-- The two binding loops of `CommandInstance.execute`: required names
take `argv._[i]` for `i < requiredMatches.length` (the arity guard has
already ensured those positionals exist, which the `zip` relies on), and
optional names take `argv._[i + requiredMatches.length]` while that
index is in range. -/
def bindParams (required optionals pos : List String) :
    List (String × String) :=
  let afterReq :=
    ((required.map stripBrackets).zip pos).foldl
      (fun a kv => setParam a kv.1 kv.2) []
  ((optionals.map stripBrackets).zip (pos.drop required.length)).foldl
    (fun a kv => setParam a kv.1 kv.2) afterReq

/-- Read a property of the params object. -/
def getParam (ps : List (String × String)) (k : String) : Option String :=
  (ps.find? (fun p => p.1 == k)).map (fun p => p.2)

/-- Observable outcome of one `CommandInstance.execute` call that
resolved normally: the messages it sent, how often the handler ran, the
bound parameter mapping it passed to the handler, and the value the
async function resolved with.  The JS `execute` has no `return`
statement carrying a value on any path, which is why every constructor
site below sets `returned := none`. -/
structure ExecResult where
  sent : List SentMessage
  handlerCalls : Nat
  params : List (String × String)
  returned : Option String
  deriving DecidableEq

/-- JS truthiness of a `void | string` value: only a non-empty string is
truthy. -/
def jsTruthy : Option String → Bool
  | some s => s != ""
  | none => false

/-- `CommandInstance.execute(possible, bot, session)` from src/bot.ts:
tokenize, flag-extract (identity under the empty flag schema), remove
the first positional equal to `this.name` (cosmokit `remove` splices the
first `indexOf` hit, i.e. `List.erase`), guard the required arity
(sending 缺少必要参数 quoting the trigger and returning), bind required
then optional parameters, run the handler, and send a truthy result.
`sendErr` models a rejection of the one awaited `bot.sendMessage` (the
reply send); the arity-failure send is not awaited, so a failure there
cannot reject `execute`. -/
def CommandInstance.execute (cmd : CommandInstance) (possible : String)
    (sess : Session) (sendErr : Option String) : Except String ExecResult :=
  let pos := (parseArgsStringToArgv possible).erase cmd.name
  if cmd.requiredMatches.length > pos.length then
    .ok { sent := [⟨sess.channelId, "缺少必要参数", some sess.msgId, false⟩],
          handlerCalls := 0, params := [], returned := none }
  else
    let params := bindParams cmd.requiredMatches cmd.optionalMatches pos
    match cmd.commandFunction params with
    | .error e => .error e
    | .ok result =>
      if jsTruthy result then
        match sendErr with
        | some e => .error e
        | none =>
          .ok { sent := [⟨sess.channelId, result.getD "", none, false⟩],
                handlerCalls := 1, params := params, returned := none }
      else
        .ok { sent := [], handlerCalls := 1, params := params,
              returned := none }

/-- `Commander.command`: construct the `CommandInstance` and push it
onto the scope's list, unconditionally. -/
def Commander.command (scope : List CommandInstance)
    (commandName descr : String) (aliases : List String) (f : Handler) :
    List CommandInstance :=
  scope ++ [CommandInstance.create commandName descr aliases f]

/-- A sequence of `Commander.command` registrations into one scope; each
entry is (signature, description, aliases, handler). -/
def registerAll (scope : List CommandInstance)
    (specs : List (String × String × List String × Handler)) :
    List CommandInstance :=
  specs.foldl (fun sc q => Commander.command sc q.1 q.2.1 q.2.2.1 q.2.2.2) scope

example : (CommandInstance.create "cmd <a> <b> [c]" "d" [] (fun _ => .ok none)).requiredMatches = ["<a>", "<b>"] := by decide

/-- Inner loop of the optimal-string-alignment (Damerau–Levenshtein)
distance: compute matrix row `i` (columns `1..|b|`) from row `i-1`
(`prev`), row `i-2` (`prevPrev`), the current character `ai = a[i-1]`
and the previous one `aprev = a[i-2]`; `left` carries `d[i][j-1]` and
`bprev` carries `b[j-2]`. -/
def osaRowGo (ai : Char) (aprev : Option Char) (prev prevPrev : List Nat) :
    List Char → Option Char → Nat → Nat → List Nat
  | [], _, _, _ => []
  | bj :: bs, bprev, j, left =>
    let cost : Nat := if ai = bj then 0 else 1
    let base :=
      min ((prev.getD j 0) + 1)
        (min (left + 1) ((prev.getD (j - 1) 0) + cost))
    let v :=
      match aprev, bprev with
      | some ap, some bp =>
        if ai = bp ∧ ap = bj then min base ((prevPrev.getD (j - 2) 0) + 1)
        else base
      | _, _ => base
    v :: osaRowGo ai aprev prev prevPrev bs (some bj) (j + 1) v

/-- Outer loop over the characters of `a`, threading the last two rows. -/
def osaRows (b : List Char) : List Char → Option Char → List Nat → List Nat → Nat → List Nat
  | [], _, prev, _, _ => prev
  | ai :: rest, aprev, prev, prevPrev, i =>
    osaRows b rest (some ai) (i :: osaRowGo ai aprev prev prevPrev b none 1 i) prev (i + 1)

/-- Damerau–Levenshtein distance (optimal string alignment) between two
strings. -/
def osaDist (a b : String) : Nat :=
  (osaRows b.data a.data none (List.range (b.data.length + 1)) [] 1).getD b.data.length 0

/-- Normalized similarity: `1 - distance / length of the longer string`
(and `1` when both strings are empty). -/
def similarity (a b : String) : ℚ :=
  let L := max a.length b.length
  if L = 0 then 1 else 1 - (osaDist a b : ℚ) / (L : ℚ)

/-- The 0.6 similarity threshold test, phrased in integer arithmetic:
`3 * L ≤ 5 * (L - d)` holds exactly when `3/5 ≤ 1 - d/L` (see
`meetsThreshold_iff_similarity`), and both strings being empty counts as
a full match. -/
def meetsThreshold (query nm : String) : Bool :=
  let L := max query.length nm.length
  let d := osaDist query nm
  decide (3 * L ≤ 5 * (L - d))

/-- Model of the external fast-fuzzy `search` call with its default
options, per the spec: keep the candidates whose name's normalized
Damerau–Levenshtein similarity to the query reaches the 0.6 threshold.
fast-fuzzy additionally sorts the kept results by score; no claim
depends on the ordering, so the registry order is kept. -/
def fuzzySearch (query : String) (cmds : List CommandInstance) :
    List CommandInstance :=
  cmds.filter (fun c => meetsThreshold query c.name)

/-- Lower-case hex digit. -/
def hexDigit (n : Nat) : Char :=
  if n < 10 then Char.ofNat ('0'.toNat + n) else Char.ofNat ('a'.toNat + (n - 10))

/-- `JSON.stringify` escaping of one character inside a string literal. -/
def jsonEscapeChar (c : Char) : String :=
  if c = '\"' then "\\\""
  else if c = '\\' then "\\\\"
  else if c = '\x08' then "\\b"
  else if c = '\x09' then "\\t"
  else if c = '\x0a' then "\\n"
  else if c = '\x0c' then "\\f"
  else if c = '\x0d' then "\\r"
  else if c.toNat < 0x20 then
    "\\u00" ++ ⟨[hexDigit (c.toNat / 16), hexDigit (c.toNat % 16)]⟩
  else ⟨[c]⟩

/-- A `JSON.stringify`d string literal. -/
def jsonStr (s : String) : String :=
  "\"" ++ String.join (s.data.map jsonEscapeChar) ++ "\""

/-- An opening curly bracket (JSON object delimiter). -/
def lcur : String := "\x7b"

/-- A closing curly bracket (JSON object delimiter). -/
def rcur : String := "\x7d"

/-- `Commander.CardTemplete(commands, input, avatar)` from commander.ts:
the kmarkdown body built from the name/description pairs, wrapped in the
fixed card structure and serialized exactly as `JSON.stringify` would
(insertion-ordered keys, no added whitespace). -/
def Commander.CardTemplete (commands : List (String × String))
    (input avatar : String) : String :=
  let content := "**指令** - *描述* \n" ++
    String.join (commands.map (fun b => "**" ++ b.1 ++ "** - *" ++ b.2 ++ "*\n"))
  "[" ++ lcur ++ "\"type\":\"card\",\"size\":\"lg\",\"theme\":\"warning\",\"modules\":["
  ++ lcur ++ "\"type\":\"header\",\"text\":" ++ lcur
  ++ "\"type\":\"plain-text\",\"content\":\"相似指令提示\"" ++ rcur ++ rcur ++ ","
  ++ lcur ++ "\"type\":\"section\",\"text\":" ++ lcur
  ++ "\"type\":\"kmarkdown\",\"content\":" ++ jsonStr content ++ rcur ++ rcur ++ ","
  ++ lcur ++ "\"type\":\"context\",\"elements\":["
  ++ lcur ++ "\"type\":\"plain-text\",\"content\":\"匹配触发：\"" ++ rcur ++ ","
  ++ lcur ++ "\"type\":\"image\",\"src\":" ++ jsonStr avatar
  ++ ",\"alt\":\"\",\"size\":\"lg\",\"circle\":false" ++ rcur ++ ","
  ++ lcur ++ "\"type\":\"kmarkdown\",\"content\":" ++ jsonStr input ++ rcur
  ++ "]" ++ rcur ++ "]" ++ rcur ++ "]"

/-- The value the `command/before-parse` bail hook resolves with when it
returns at all: a string override or a boolean (the declared hook type
is `void | string | boolean`; `void` is the absent case). -/
inductive PreParseResult where
  | str : String → PreParseResult
  | bool : Bool → PreParseResult
  deriving DecidableEq

/-- JS falsiness on the non-`undefined` part of `void | string |
boolean`: the empty string and `false`. -/
def jsFalsy : PreParseResult → Bool
  | .str s => s == ""
  | .bool b => !b

/-- Everything `setupCommandParser` consults besides the session: the
configured command prefix `pfx`, the registry in map-insertion order —
each entry is (`context.filter(session)` for that scope, the scope's
command list) — and the resolved results of the `command/before-parse`
bail hook and the `command/before-execute` serial hook, plus the reply
send-failure model threaded to `execute`. -/
structure DispatchEnv where
  pfx : String
  entries : List (Bool × List CommandInstance)
  preParse : Option PreParseResult
  beforeExecute : Option String
  sendErr : Option String

/-- Observable outcome of running the middleware on one message.
`logged` holds the errors captured by the dispatch-level `.catch`;
`hookEmitted` records whether `parallel('command/execute', …)` ran;
`nextCalled` records yielding to the next middleware. -/
structure DispatchResult where
  sent : List SentMessage := []
  matchedName : Option String := none
  execResult : Option ExecResult := none
  logged : List String := []
  hookEmitted : Bool := false
  nextCalled : Bool := false
  deriving DecidableEq

/-- `meetCommands`: concatenate, in map-insertion order, the command
lists of the scopes whose context filter accepts the session. -/
def meetCommands (entries : List (Bool × List CommandInstance)) :
    List CommandInstance :=
  (entries.filter (fun e => e.1)).flatMap (fun e => e.2)

/-- The matching loop of `setupCommandParser`: the first command whose
name strictly equals the head (`===`) or whose aliases include the head
ends the scan. -/
def findCommand (hd : String) : List CommandInstance → Option CommandInstance
  | [] => none
  | c :: rest =>
    if hd = c.name ∨ hd ∈ c.aliases then some c
    else findCommand hd rest

/-- JS `s.startsWith(p)` at the character level. -/
def strStartsWith (s p : String) : Bool :=
  s.data.take p.data.length == p.data

/-- Split the de-prefixed input at its first space:
`index = input.indexOf(' ')`; without a space the whole input is the
head and the args text is empty. -/
def splitHeadArgs (input : String) : String × String :=
  match input.data.findIdx? (· == ' ') with
  | some i => (⟨input.data.take i⟩, ⟨input.data.drop (i + 1)⟩)
  | none => (input, "")

/-- The pre-parse hook guard: an absent result keeps the input, a string
result replaces it, a truthy non-string result keeps it, and any other
falsy result cancels dispatch (`none`). -/
def afterPreParse (response : Option PreParseResult) (input : String) :
    Option String :=
  match response with
  | none => some input
  | some (.str s) => some s
  | some (.bool b) => if b then some input else none

/-- The body of `setupCommandParser` after the prefix and pre-parse
guards: split head/args, match, and either run the before-execute hook /
`execute`, or fall through to the fuzzy-suggestion path. -/
def dispatchCore (env : DispatchEnv) (sess : Session) (input : String) :
    DispatchResult :=
  let hd := (splitHeadArgs input).1
  let args := (splitHeadArgs input).2
  let meet := meetCommands env.entries
  match findCommand hd meet with
  | some c =>
    match env.beforeExecute with
    | some s =>
      { sent := [⟨sess.channelId, s, some sess.msgId, false⟩],
        matchedName := some c.name }
    | none =>
      match CommandInstance.execute c args sess env.sendErr with
      | .error e => { matchedName := some c.name, logged := [e] }
      | .ok r =>
        { sent := r.sent, matchedName := some c.name, execResult := some r,
          hookEmitted := jsTruthy r.returned }
  | none =>
    let cands := fuzzySearch hd meet
    if cands.isEmpty then
      { sent := [⟨sess.channelId, "找不到相关指令", some sess.msgId, false⟩] }
    else
      { sent := [⟨sess.channelId,
          Commander.CardTemplete
            (cands.map (fun item =>
              (item.name ++ " " ++
                (if item.aliases.length != 0 then
                  "(" ++ String.intercalate "," item.aliases ++ ")"
                 else ""),
               item.description)))
            sess.content sess.avatar,
          some sess.msgId, true⟩] }

/-- The middleware `setupCommandParser` from commander.ts: yield to the
next middleware when the content lacks the prefix, cancel silently when
the pre-parse hook vetoes, and otherwise dispatch the de-prefixed
(possibly hook-replaced) input. -/
def Commander.setupCommandParser (env : DispatchEnv) (sess : Session) :
    DispatchResult :=
  if strStartsWith sess.content env.pfx then
    match afterPreParse env.preParse (sess.content.drop env.pfx.length) with
    | none => {}
    | some input => dispatchCore env sess input
  else { nextCalled := true }

example : osaDist "" "greet" = 5 := by decide
example : osaDist "abc" "ca" = 3 := by decide
example : meetsThreshold "x" "greet" = false := by decide

/-- The integer threshold test agrees with the rational similarity
threshold. -/
theorem meetsThreshold_iff_similarity (q n : String) :
    meetsThreshold q n = true ↔ (3 : ℚ) / 5 ≤ similarity q n := by
  unfold meetsThreshold similarity
  simp only [decide_eq_true_eq]
  by_cases h0 : max q.length n.length = 0
  · rw [h0]
    simp
    norm_num
  · rw [if_neg h0]
    set L := max q.length n.length with hL
    set d := osaDist q n with hd
    have hLpos : (0 : ℚ) < (L : ℚ) := by
      exact_mod_cast Nat.pos_of_ne_zero h0
    constructor
    · intro h
      have hdL : d ≤ L := by
        by_contra hgt
        push_neg at hgt
        have hz : L - d = 0 := Nat.sub_eq_zero_of_le (le_of_lt hgt)
        rw [hz] at h
        omega
      have key : 5 * d ≤ 2 * L := by omega
      have hcast : (5 : ℚ) * (d : ℚ) ≤ 2 * (L : ℚ) := by exact_mod_cast key
      have hdiv : (d : ℚ) / (L : ℚ) ≤ 2 / 5 := by
        rw [div_le_div_iff₀ hLpos (by norm_num)]
        linarith
      linarith
    · intro h
      have hdiv : (d : ℚ) / (L : ℚ) ≤ 2 / 5 := by linarith
      have hcast : (5 : ℚ) * (d : ℚ) ≤ 2 * (L : ℚ) := by
        rw [div_le_div_iff₀ hLpos (by norm_num)] at hdiv
        linarith
      have key : 5 * d ≤ 2 * L := by exact_mod_cast hcast
      omega

/-- A string built from a non-empty character list is not the empty
string. -/
theorem mk_ne_empty_of_ne_nil (arg : List Char) (h : arg ≠ []) :
    (⟨arg⟩ : String) ≠ "" := by
  intro hc
  apply h
  rw [show ("" : String) = ⟨[]⟩ from rfl] at hc
  injection hc

/-- Every normally-resolved `execute` past the arity guard passes the
`bindParams` mapping to the handler (and runs it exactly once). -/
theorem execute_ok_params (cmd : CommandInstance) (possible : String)
    (sess : Session) (se : Option String) (r : ExecResult)
    (harity : ¬ ((parseArgsStringToArgv possible).erase cmd.name).length <
      cmd.requiredMatches.length)
    (h : CommandInstance.execute cmd possible sess se = .ok r) :
    r.params = bindParams cmd.requiredMatches cmd.optionalMatches
      ((parseArgsStringToArgv possible).erase cmd.name) ∧
    r.handlerCalls = 1 := by
  simp only [CommandInstance.execute] at h
  split at h
  · next h1 => exact absurd h1 harity
  · split at h
    · exact Except.noConfusion h
    · split at h
      · split at h
        · exact Except.noConfusion h
        · simp only [Except.ok.injEq] at h
          subst h
          exact ⟨rfl, rfl⟩
      · simp only [Except.ok.injEq] at h
        subst h
        exact ⟨rfl, rfl⟩

/-- The JS `execute` resolves with `undefined` on every normal path. -/
theorem execute_returned_none (cmd : CommandInstance) (possible : String)
    (sess : Session) (se : Option String) (r : ExecResult)
    (h : CommandInstance.execute cmd possible sess se = .ok r) :
    r.returned = none := by
  simp only [CommandInstance.execute] at h
  split at h
  · simp only [Except.ok.injEq] at h
    subst h
    rfl
  · split at h
    · exact Except.noConfusion h
    · split at h
      · split at h
        · exact Except.noConfusion h
        · simp only [Except.ok.injEq] at h
          subst h
          rfl
      · simp only [Except.ok.injEq] at h
        subst h
        rfl

/-- Commands that match neither by name nor by alias are skipped by the
matching loop. -/
theorem findCommand_append_none (hd : String) (l1 l2 : List CommandInstance)
    (h : ∀ c ∈ l1, hd ≠ c.name ∧ hd ∉ c.aliases) :
    findCommand hd (l1 ++ l2) = findCommand hd l2 := by
  induction l1 with
  | nil => rfl
  | cons a l ih =>
    have ha := h a (List.mem_cons_self a l)
    simp only [List.cons_append, findCommand]
    rw [if_neg (by rw [not_or]; exact ha)]
    exact ih (fun c hc => h c (List.mem_cons_of_mem a hc))

/-- The first matching command stops the scan at once. -/
theorem findCommand_cons_of_match (hd : String) (c : CommandInstance)
    (l : List CommandInstance) (h : hd = c.name ∨ hd ∈ c.aliases) :
    findCommand hd (c :: l) = some c := by
  simp only [findCommand]
  rw [if_pos h]

/-- The tokenizer scanner only ever emits non-empty tokens. -/
theorem tokenizeAux_ne_empty : ∀ (cs : List Char) (q e : Bool)
    (arg : List Char) (args : List String), (∀ t ∈ args, t ≠ "") →
    ∀ t ∈ tokenizeAux cs q e arg args, t ≠ "" := by
  intro cs
  induction cs with
  | nil =>
    intro q e arg args hargs t ht
    simp only [tokenizeAux] at ht
    split at ht
    · exact hargs t ht
    · next hne =>
      rcases List.mem_append.mp ht with hmem | hmem
      · exact hargs t hmem
      · rw [List.mem_singleton.mp hmem]
        exact mk_ne_empty_of_ne_nil arg
          (fun hnil => hne (by rw [hnil]; rfl))
  | cons c cs ih =>
    intro q e arg args hargs t ht
    simp only [tokenizeAux] at ht
    split at ht
    · exact ih _ _ _ _ hargs t ht
    · split at ht
      · exact ih _ _ _ _ hargs t ht
      · split at ht
        · exact ih _ _ _ _ hargs t ht
        · split at ht
          · split at ht
            · exact ih _ _ _ _ hargs t ht
            · next hne =>
              refine ih _ _ _ _ ?_ t ht
              intro u hu
              rcases List.mem_append.mp hu with hm | hm
              · exact hargs u hm
              · rw [List.mem_singleton.mp hm]
                exact mk_ne_empty_of_ne_nil arg
                  (fun hnil => hne (by rw [hnil]; rfl))
          · exact ih _ _ _ _ hargs t ht

/-- The execute-notification guard of the dispatcher never fires: on
every path the guarding value is `execute`'s resolved value, which is
always `undefined`. -/
theorem dispatchCore_hookEmitted (env : DispatchEnv) (sess : Session)
    (input : String) : (dispatchCore env sess input).hookEmitted = false := by
  simp only [dispatchCore]
  split
  · split
    · rfl
    · split
      · rfl
      · next r heq =>
        rw [execute_returned_none _ _ _ _ _ heq]
        rfl
  · split
    · rfl
    · rfl

/-- Registration folds to plain list append. -/
theorem registerAll_append
    (specs : List (String × String × List String × Handler)) :
    ∀ sc, registerAll sc specs =
      sc ++ specs.map (fun q => CommandInstance.create q.1 q.2.1 q.2.2.1 q.2.2.2) := by
  induction specs with
  | nil => intro sc; simp [registerAll]
  | cons q qs ih =>
    intro sc
    have hstep : registerAll sc (q :: qs) =
        registerAll (Commander.command sc q.1 q.2.1 q.2.2.1 q.2.2.2) qs := rfl
    rw [hstep, ih]
    simp [Commander.command]

/-- C2: the `command/execute` notification can never be emitted: the
dispatcher guards `parallel('command/execute', …)` with `if (r)` on the
value `execute` resolves with, and `execute` has no return statement, so
it always resolves `undefined`.  In particular, in the concrete scenario
of command `greet <name>` whose handler returns a reply, the message
`!greet Alice` produces the reply `Hello, Alice` and still no
execute-notification hook. -/
theorem command_execute_hook_never_emitted :
    (∀ (env : DispatchEnv) (sess : Session),
      (Commander.setupCommandParser env sess).hookEmitted = false) ∧
    Commander.setupCommandParser
        ⟨"!", [(true, [CommandInstance.create "greet <name>" "greets" []
          (fun ps => .ok (some ("Hello, " ++ ((getParam ps "name").getD ""))))])],
          none, none, none⟩
        ⟨"!greet Alice", "chan", "mid", "ava"⟩ =
      { sent := [⟨"chan", "Hello, Alice", none, false⟩],
        matchedName := some "greet",
        execResult := some ⟨[⟨"chan", "Hello, Alice", none, false⟩], 1,
          [("name", "Alice")], none⟩,
        logged := [], hookEmitted := false, nextCalled := false } := by
  constructor
  · intro env sess
    simp only [Commander.setupCommandParser]
    split
    · split
      · rfl
      · exact dispatchCore_hookEmitted env sess _
    · rfl
  · decide

/-- C3 counterexample: two registrations with the same head `dup` in one
scope leave the scope's list with a duplicated name — `Commander.command`
performs no uniqueness check. -/
theorem scope_allows_duplicate_names :
    (Commander.command
        (Commander.command [] "dup <a>" "first" [] (fun _ => .ok none))
        "dup <b>" "second" [] (fun _ => .ok none)).map
      (fun c => c.name) = ["dup", "dup"] ∧
    ¬ ((Commander.command
        (Commander.command [] "dup <a>" "first" [] (fun _ => .ok none))
        "dup <b>" "second" [] (fun _ => .ok none)).map
      (fun c => c.name)).Nodup :=
  ⟨by decide, by decide⟩

/-- C3 amended: after any sequence of registrations, a scope's list is
exactly the constructed `CommandInstance`s in registration order —
`Commander.command` appends unconditionally and never deduplicates, so
duplicate names are permitted. -/
theorem command_registration_appends
    (specs : List (String × String × List String × Handler)) :
    registerAll [] specs =
      specs.map (fun q => CommandInstance.create q.1 q.2.1 q.2.2.1 q.2.2.2) := by
  rw [registerAll_append]
  rfl

/-- C4: when the positional tokens left after flag extraction and head
removal are fewer than the required parameters, `execute` sends exactly
one 缺少必要参数 message quoting the triggering message, binds nothing,
never calls the handler, and resolves normally (throws nothing). -/
theorem execute_missing_required_param (cmd : CommandInstance)
    (possible : String) (sess : Session) (se : Option String)
    (h : ((parseArgsStringToArgv possible).erase cmd.name).length <
      cmd.requiredMatches.length) :
    CommandInstance.execute cmd possible sess se =
      .ok { sent := [⟨sess.channelId, "缺少必要参数", some sess.msgId, false⟩],
            handlerCalls := 0, params := [], returned := none } := by
  simp only [CommandInstance.execute]
  rw [if_pos h]

/-- C4 witness: `add <x> <y>` invoked with the single token `one`. -/
theorem execute_missing_required_param_witness :
    (((parseArgsStringToArgv "one").erase
        (CommandInstance.create "add <x> <y>" "adds two numbers" []
          (fun _ => .ok none)).name).length <
      (CommandInstance.create "add <x> <y>" "adds two numbers" []
        (fun _ => .ok none)).requiredMatches.length) ∧
    CommandInstance.execute
        (CommandInstance.create "add <x> <y>" "adds two numbers" []
          (fun _ => .ok none)) "one" ⟨"!add one", "chan", "mid", "ava"⟩ none =
      .ok { sent := [⟨"chan", "缺少必要参数", some "mid", false⟩],
            handlerCalls := 0, params := [], returned := none } :=
  ⟨by decide, execute_missing_required_param _ _ _ _ (by decide)⟩

/-- C7 counterexample: the empty string is a falsy non-`undefined`
pre-parse result, yet it does not cancel dispatch — the string branch of
the guard runs first, replaces the input with `""`, and dispatch
continues all the way to a user-visible 找不到相关指令 reply. -/
theorem preparse_falsy_string_still_dispatches :
    jsFalsy (PreParseResult.str "") = true ∧
    (Commander.setupCommandParser
        ⟨"!", [], some (PreParseResult.str ""), none, none⟩
        ⟨"!ping", "chan", "mid", "ava"⟩).sent =
      [⟨"chan", "找不到相关指令", some "mid", false⟩] :=
  ⟨rfl, by decide⟩

/-- C7 amended: a pre-parse result of `false` (a falsy non-string)
cancels dispatch with zero side effects: nothing sent, nothing matched,
nothing executed, nothing logged, no hook, and no fallthrough to the
next middleware. -/
theorem preparse_false_cancels_dispatch (env : DispatchEnv) (sess : Session)
    (hpfx : strStartsWith sess.content env.pfx = true)
    (hpre : env.preParse = some (PreParseResult.bool false)) :
    Commander.setupCommandParser env sess =
      { sent := [], matchedName := none, execResult := none, logged := [],
        hookEmitted := false, nextCalled := false } := by
  simp only [Commander.setupCommandParser]
  rw [hpfx, hpre]
  rfl

/-- C7 amended witness: `false` from the hook on `!greet Alice`. -/
theorem preparse_false_cancels_dispatch_witness :
    (strStartsWith "!greet Alice" "!" = true) ∧
    Commander.setupCommandParser
        ⟨"!", [(true, [CommandInstance.create "greet <name>" "greets" []
          (fun _ => .ok (some "hello"))])],
          some (PreParseResult.bool false), none, none⟩
        ⟨"!greet Alice", "chan", "mid", "ava"⟩ =
      { sent := [], matchedName := none, execResult := none, logged := [],
        hookEmitted := false, nextCalled := false } :=
  ⟨by decide, preparse_false_cancels_dispatch _ _ (by decide) rfl⟩

/-- C10: the dispatcher's args text for `!echo echo hi` is `echo hi`
(the head is already stripped), yet `execute` removes the first
positional equal to the command name again: the genuine positional
`echo` vanishes before the arity check and binding.  With signature
`echo <msg>` the handler sees `msg = "hi"`, and with `echo <a> <b>` the
two supplied tokens are reduced to one, triggering the
missing-parameter path. -/
theorem head_removal_eats_matching_positional (chan mid ava : String)
    (se : Option String) (hndl hndl2 : Handler) :
    splitHeadArgs "echo echo hi" = ("echo", "echo hi") ∧
    (parseArgsStringToArgv "echo hi").erase
        (CommandInstance.create "echo <msg>" "repeats" [] hndl).name = ["hi"] ∧
    (∀ r, CommandInstance.execute
        (CommandInstance.create "echo <msg>" "repeats" [] hndl) "echo hi"
        ⟨"!echo echo hi", chan, mid, ava⟩ se = .ok r →
      r.params = [("msg", "hi")]) ∧
    CommandInstance.execute
        (CommandInstance.create "echo <a> <b>" "needs two" [] hndl2) "echo hi"
        ⟨"!echo echo hi", chan, mid, ava⟩ se =
      .ok { sent := [⟨chan, "缺少必要参数", some mid, false⟩],
            handlerCalls := 0, params := [], returned := none } := by
  refine ⟨rfl, rfl, ?_, ?_⟩
  · intro r hr
    have h := execute_ok_params
      (CommandInstance.create "echo <msg>" "repeats" [] hndl) "echo hi"
      ⟨"!echo echo hi", chan, mid, ava⟩ se r
      (fun hlt => Nat.lt_irrefl 1 hlt) hr
    rw [h.1]
    rfl
  · simp only [CommandInstance.execute]
    split
    · rfl
    · next hcond => exact absurd Nat.one_lt_two hcond

/-- C10 witness: the `echo <msg>` scenario run with a handler that
echoes its bound `msg`. -/
theorem head_removal_eats_matching_positional_witness :
    (CommandInstance.execute
        (CommandInstance.create "echo <msg>" "repeats" []
          (fun ps => Except.ok (getParam ps "msg"))) "echo hi"
        ⟨"!echo echo hi", "chan", "mid", "ava"⟩ none =
      .ok ⟨[⟨"chan", "hi", none, false⟩], 1, [("msg", "hi")], none⟩) ∧
    (⟨[⟨"chan", "hi", none, false⟩], 1, [("msg", "hi")], none⟩ :
      ExecResult).params = [("msg", "hi")] :=
  ⟨rfl,
    (head_removal_eats_matching_positional "chan" "mid" "ava" none
        (fun ps => Except.ok (getParam ps "msg")) (fun _ => Except.ok none)).2.2.1
      ⟨[⟨"chan", "hi", none, false⟩], 1, [("msg", "hi")], none⟩ rfl⟩

/-- C1: after the prefix check and an unobstructed pre-parse, dispatch
scans the visible commands in registration order and selects the first
whose name equals the head or whose aliases contain it — exact,
case-sensitive, first-wins; in particular a head equal to a registered
alias resolves to that command. -/
theorem dispatch_selects_first_matching_command (env : DispatchEnv)
    (sess : Session) (l1 l2 : List CommandInstance) (c : CommandInstance)
    (hd : String)
    (hpre : env.preParse = none)
    (hpfx : strStartsWith sess.content env.pfx = true)
    (hmeet : meetCommands env.entries = l1 ++ c :: l2)
    (hhd : (splitHeadArgs (sess.content.drop env.pfx.length)).1 = hd)
    (hmatch : hd = c.name ∨ hd ∈ c.aliases)
    (hfirst : ∀ x ∈ l1, hd ≠ x.name ∧ hd ∉ x.aliases) :
    findCommand hd (meetCommands env.entries) = some c ∧
    (Commander.setupCommandParser env sess).matchedName = some c.name := by
  have hfc : findCommand hd (meetCommands env.entries) = some c := by
    rw [hmeet, findCommand_append_none hd l1 _ hfirst,
      findCommand_cons_of_match hd c l2 hmatch]
  refine ⟨hfc, ?_⟩
  simp only [Commander.setupCommandParser]
  rw [hpfx, hpre]
  show (dispatchCore env sess (sess.content.drop (env.pfx.length))).matchedName = _
  simp only [dispatchCore]
  rw [hhd, hfc]
  split
  · next c2 heq =>
    injection heq with h2
    subst h2
    split
    · rfl
    · split
      · rfl
      · rfl
  · next heq => exact Option.noConfusion heq

/-- C1 witness: head `hi` is the alias of the second registered command
`greet`; the first (`foo`) does not match, so `greet` is selected. -/
theorem dispatch_selects_first_matching_command_witness :
    findCommand "hi"
        (meetCommands [(true,
          [CommandInstance.create "foo <x>" "first" [] (fun _ => .ok none),
           CommandInstance.create "greet <name>" "second" ["hi"]
             (fun _ => .ok (some "hello"))])]) =
      some (CommandInstance.create "greet <name>" "second" ["hi"]
        (fun _ => .ok (some "hello"))) ∧
    (Commander.setupCommandParser
        ⟨"!", [(true,
          [CommandInstance.create "foo <x>" "first" [] (fun _ => .ok none),
           CommandInstance.create "greet <name>" "second" ["hi"]
             (fun _ => .ok (some "hello"))])], none, none, none⟩
        ⟨"!hi Bob", "chan", "mid", "ava"⟩).matchedName = some "greet" :=
  dispatch_selects_first_matching_command
    ⟨"!", [(true,
      [CommandInstance.create "foo <x>" "first" [] (fun _ => .ok none),
       CommandInstance.create "greet <name>" "second" ["hi"]
         (fun _ => .ok (some "hello"))])], none, none, none⟩
    ⟨"!hi Bob", "chan", "mid", "ava"⟩
    [CommandInstance.create "foo <x>" "first" [] (fun _ => .ok none)] []
    (CommandInstance.create "greet <name>" "second" ["hi"]
      (fun _ => .ok (some "hello")))
    "hi" rfl (by decide) rfl rfl
    (Or.inr (List.mem_singleton_self "hi"))
    (by
      intro x hx
      rw [List.mem_singleton.mp hx]
      exact ⟨by decide, by decide⟩)

/-- C6: the tokenizer drops empty tokens on every input, groups quoted
segments, appends escaped characters verbatim, tolerates an unterminated
quote without any error, collapses repeated spaces, and flushes the
trailing token. -/
theorem tokenizer_behavior :
    (∀ (s t : String), t ∈ parseArgsStringToArgv s → t ≠ "") ∧
    parseArgsStringToArgv "foo \"bar baz\" qux" = ["foo", "bar baz", "qux"] ∧
    parseArgsStringToArgv "a \"bc" = ["a", "bc"] ∧
    parseArgsStringToArgv "a\\ b" = ["a b"] ∧
    parseArgsStringToArgv "\"ab\"cd e" = ["abcd", "e"] ∧
    parseArgsStringToArgv "a  b" = ["a", "b"] := by
  refine ⟨?_, by decide, by decide, by decide, by decide, by decide⟩
  intro s t ht
  exact tokenizeAux_ne_empty s.data false false [] []
    (fun u hu => absurd hu (List.not_mem_nil u)) t ht

/-- C6 witness: `foo` is a token of `foo bar` and is non-empty. -/
theorem tokenizer_behavior_witness :
    ("foo" ∈ parseArgsStringToArgv "foo bar") ∧ ("foo" : String) ≠ "" :=
  ⟨by decide, tokenizer_behavior.1 "foo bar" "foo" (by decide)⟩

/-- C8: an error thrown in the handler body (or by the awaited send of
the handler's reply) is not caught inside `execute` — it rejects the
`execute` promise — and the dispatch boundary's `.catch` logs it without
re-raising: the middleware still returns normally with the error in the
log and nothing sent. -/
theorem handler_errors_propagate_and_are_logged :
    (∀ (cmd : CommandInstance) (possible : String) (sess : Session)
        (se : Option String) (e : String),
      ¬ ((parseArgsStringToArgv possible).erase cmd.name).length <
        cmd.requiredMatches.length →
      cmd.commandFunction (bindParams cmd.requiredMatches cmd.optionalMatches
        ((parseArgsStringToArgv possible).erase cmd.name)) = .error e →
      CommandInstance.execute cmd possible sess se = .error e) ∧
    (∀ (cmd : CommandInstance) (possible : String) (sess : Session)
        (e s : String),
      ¬ ((parseArgsStringToArgv possible).erase cmd.name).length <
        cmd.requiredMatches.length →
      cmd.commandFunction (bindParams cmd.requiredMatches cmd.optionalMatches
        ((parseArgsStringToArgv possible).erase cmd.name)) = .ok (some s) →
      s ≠ "" →
      CommandInstance.execute cmd possible sess (some e) = .error e) ∧
    (∀ (env : DispatchEnv) (sess : Session) (c : CommandInstance) (e : String),
      strStartsWith sess.content env.pfx = true →
      env.preParse = none →
      env.beforeExecute = none →
      findCommand (splitHeadArgs (sess.content.drop env.pfx.length)).1
        (meetCommands env.entries) = some c →
      CommandInstance.execute c
        (splitHeadArgs (sess.content.drop env.pfx.length)).2 sess env.sendErr =
        .error e →
      Commander.setupCommandParser env sess =
        { sent := [], matchedName := some c.name, execResult := none,
          logged := [e], hookEmitted := false, nextCalled := false }) := by
  refine ⟨?_, ?_, ?_⟩
  · intro cmd possible sess se e harity hf
    simp only [CommandInstance.execute]
    rw [if_neg harity, hf]
  · intro cmd possible sess e s harity hf hs
    simp only [CommandInstance.execute]
    rw [if_neg harity, hf]
    simp [jsTruthy, hs]
  · intro env sess c e hpfx hpre hbe hfind hexec
    simp only [Commander.setupCommandParser]
    rw [hpfx, hpre]
    show dispatchCore env sess (sess.content.drop (env.pfx.length)) = _
    simp only [dispatchCore]
    split
    · next c2 heq =>
      rw [hfind] at heq
      injection heq with heq2
      subst heq2
      rw [hbe, hexec]
    · next heq =>
      rw [hfind] at heq
      exact Option.noConfusion heq

/-- C8 witness: a command whose handler always throws `kaboom`. -/
theorem handler_errors_propagate_and_are_logged_witness :
    (CommandInstance.execute
        (CommandInstance.create "boom <x>" "always throws" []
          (fun _ => .error "kaboom")) "1"
        ⟨"!boom 1", "chan", "mid", "ava"⟩ none = .error "kaboom") ∧
    Commander.setupCommandParser
        ⟨"!", [(true, [CommandInstance.create "boom <x>" "always throws" []
          (fun _ => .error "kaboom")])], none, none, none⟩
        ⟨"!boom 1", "chan", "mid", "ava"⟩ =
      { sent := [], matchedName := some "boom", execResult := none,
        logged := ["kaboom"], hookEmitted := false, nextCalled := false } := by
  have h1 := handler_errors_propagate_and_are_logged.1
    (CommandInstance.create "boom <x>" "always throws" []
      (fun _ => .error "kaboom")) "1"
    ⟨"!boom 1", "chan", "mid", "ava"⟩ none "kaboom" (by decide) rfl
  exact ⟨h1,
    handler_errors_propagate_and_are_logged.2.2
      ⟨"!", [(true, [CommandInstance.create "boom <x>" "always throws" []
        (fun _ => .error "kaboom")])], none, none, none⟩
      ⟨"!boom 1", "chan", "mid", "ava"⟩
      (CommandInstance.create "boom <x>" "always throws" []
        (fun _ => .error "kaboom")) "kaboom"
      (by decide) rfl rfl rfl h1⟩

/-- Assigning a fresh key appends it. -/
theorem setParam_append_of_not_mem (ps : List (String × String)) (k v : String)
    (h : ∀ p ∈ ps, p.1 ≠ k) : setParam ps k v = ps ++ [(k, v)] := by
  unfold setParam
  rw [if_neg]
  intro hany
  rw [List.any_eq_true] at hany
  obtain ⟨p, hp, hpk⟩ := hany
  exact h p hp (by simpa using hpk)

/-- Folding assignments of pairwise-fresh keys appends them in order. -/
theorem foldl_setParam_append (kvs : List (String × String)) :
    ∀ ps : List (String × String),
      (∀ kv ∈ kvs, ∀ p ∈ ps, kv.1 ≠ p.1) →
      (kvs.map Prod.fst).Nodup →
      kvs.foldl (fun a kv => setParam a kv.1 kv.2) ps = ps ++ kvs := by
  induction kvs with
  | nil => intro ps _ _; simp
  | cons kv rest ih =>
    intro ps hdisj hnd
    simp only [List.foldl_cons]
    have hnd2 := List.nodup_cons.mp
      (show (kv.1 :: rest.map Prod.fst).Nodup from hnd)
    have h1 : setParam ps kv.1 kv.2 = ps ++ [kv] := by
      have := setParam_append_of_not_mem ps kv.1 kv.2
        (fun p hp => (hdisj kv (List.mem_cons_self kv rest) p hp).symm)
      simpa using this
    rw [h1, ih (ps ++ [kv]) ?_ hnd2.2]
    · simp
    · intro kv2 hkv2 p hp
      rcases List.mem_append.mp hp with hp1 | hp1
      · exact hdisj kv2 (List.mem_cons_of_mem kv hkv2) p hp1
      · rw [List.mem_singleton.mp hp1]
        intro heq
        exact hnd2.1 (heq ▸ List.mem_map_of_mem Prod.fst hkv2)

/-- The keys of a zip are the name list truncated to the value count. -/
theorem map_fst_zip_eq_take {α β : Type} (l1 : List α) :
    ∀ l2 : List β, (l1.zip l2).map Prod.fst = l1.take l2.length := by
  induction l1 with
  | nil => intro l2; simp
  | cons a l ih =>
    intro l2
    cases l2 with
    | nil => simp
    | cons b l2t => simp [ih l2t]

/-- A hit in the left part of an association-list append wins. -/
theorem getParam_append_left (l1 l2 : List (String × String)) (k v : String)
    (h : getParam l1 k = some v) : getParam (l1 ++ l2) k = some v := by
  unfold getParam at h ⊢
  rw [List.find?_append]
  cases hf : List.find? (fun p => p.1 == k) l1 with
  | none => rw [hf] at h; exact Option.noConfusion h
  | some p =>
    rw [hf] at h
    simpa using h

/-- A key absent from the left part of an append is looked up on the
right. -/
theorem getParam_append_right (l1 l2 : List (String × String)) (k : String)
    (h : ∀ p ∈ l1, p.1 ≠ k) : getParam (l1 ++ l2) k = getParam l2 k := by
  unfold getParam
  rw [List.find?_append,
    List.find?_eq_none.mpr (fun p hp => by simpa using h p hp)]
  simp

/-- Looking up the `i`-th name of a duplicate-free name list in its zip
with a value list returns the `i`-th value (or nothing when the values
run out). -/
theorem getParam_zip (names : List String) :
    ∀ (vals : List String) (i : Nat) (hi : i < names.length),
      names.Nodup →
      getParam (names.zip vals) (names.get ⟨i, hi⟩) = vals[i]? := by
  induction names with
  | nil => intro vals i hi _; exact absurd hi (Nat.not_lt_zero i)
  | cons n ns ih =>
    intro vals i hi hnd
    cases vals with
    | nil => simp [getParam]
    | cons v vs =>
      cases i with
      | zero => simp [getParam, List.find?]
      | succ j =>
        have hj : j < ns.length := Nat.lt_of_succ_lt_succ hi
        have hne : n ≠ ns.get ⟨j, hj⟩ := by
          intro heq
          exact (List.nodup_cons.mp hnd).1 (heq ▸ List.get_mem ns j hj)
        have hkey : (n :: ns).get ⟨j + 1, hi⟩ = ns.get ⟨j, hj⟩ := rfl
        rw [hkey]
        show getParam ((n, v) :: ns.zip vs) (ns.get ⟨j, hj⟩) = (v :: vs)[j + 1]?
        unfold getParam
        rw [List.find?_cons_of_neg _ (by simpa using hne)]
        have := ih vs j hj (List.nodup_cons.mp hnd).2
        unfold getParam at this
        simpa using this

/-- Under the arity guard and duplicate-free parameter names, the two
binding loops produce the zip of required names with the leading
positionals followed by the zip of optional names with the remainder. -/
theorem bindParams_eq_append (required optionals pos : List String)
    (hnd : ((required ++ optionals).map stripBrackets).Nodup)
    (hlen : required.length ≤ pos.length) :
    bindParams required optionals pos =
      (required.map stripBrackets).zip pos ++
      (optionals.map stripBrackets).zip (pos.drop required.length) := by
  rw [List.map_append] at hnd
  obtain ⟨hndR, hndO, hdisj⟩ := List.nodup_append.mp hnd
  unfold bindParams
  have h1 : ((required.map stripBrackets).zip pos).foldl
      (fun a kv => setParam a kv.1 kv.2) [] =
      [] ++ (required.map stripBrackets).zip pos := by
    apply foldl_setParam_append
    · intro kv _ p hp
      exact absurd hp (List.not_mem_nil p)
    · rw [map_fst_zip_eq_take]
      exact hndR.sublist (List.take_sublist _ _)
  rw [h1]
  simp only [List.nil_append]
  apply foldl_setParam_append
  · intro kv hkv p hp
    obtain ⟨a, b⟩ := kv
    obtain ⟨p1, p2⟩ := p
    have ha : a ∈ optionals.map stripBrackets := (List.of_mem_zip hkv).1
    have hp1 : p1 ∈ required.map stripBrackets := (List.of_mem_zip hp).1
    intro heq
    simp only at heq
    exact hdisj hp1 (heq ▸ ha)
  · rw [map_fst_zip_eq_take]
    exact hndO.sublist (List.take_sublist _ _)

/-- Required-parameter lookup in the bound mapping. -/
theorem bindParams_getParam_required (required optionals pos : List String)
    (hnd : ((required ++ optionals).map stripBrackets).Nodup)
    (hlen : required.length ≤ pos.length) (i : Nat)
    (hi : i < required.length) :
    getParam (bindParams required optionals pos)
      (stripBrackets (required.get ⟨i, hi⟩)) = pos[i]? := by
  rw [bindParams_eq_append required optionals pos hnd hlen]
  rw [List.map_append] at hnd
  obtain ⟨hndR, hndO, hdisj⟩ := List.nodup_append.mp hnd
  have hi2 : i < (required.map stripBrackets).length := by simpa using hi
  have hkey : stripBrackets (required.get ⟨i, hi⟩) =
      (required.map stripBrackets).get ⟨i, hi2⟩ := by
    simp
  rw [hkey]
  have hz := getParam_zip (required.map stripBrackets) pos i hi2 hndR
  have hip : i < pos.length := lt_of_lt_of_le hi hlen
  rw [List.getElem?_eq_getElem hip] at hz
  rw [getParam_append_left _ _ _ _ hz, List.getElem?_eq_getElem hip]

/-- Optional-parameter lookup in the bound mapping. -/
theorem bindParams_getParam_optional (required optionals pos : List String)
    (hnd : ((required ++ optionals).map stripBrackets).Nodup)
    (hlen : required.length ≤ pos.length) (j : Nat)
    (hj : j < optionals.length) :
    getParam (bindParams required optionals pos)
      (stripBrackets (optionals.get ⟨j, hj⟩)) =
      pos[required.length + j]? := by
  rw [bindParams_eq_append required optionals pos hnd hlen]
  rw [List.map_append] at hnd
  obtain ⟨hndR, hndO, hdisj⟩ := List.nodup_append.mp hnd
  have hj2 : j < (optionals.map stripBrackets).length := by simpa using hj
  have hkey : stripBrackets (optionals.get ⟨j, hj⟩) =
      (optionals.map stripBrackets).get ⟨j, hj2⟩ := by
    simp
  rw [hkey]
  rw [getParam_append_right]
  · rw [getParam_zip (optionals.map stripBrackets) (pos.drop required.length)
      j hj2 hndO]
    rw [List.getElem?_drop]
  · intro p hp
    obtain ⟨p1, p2⟩ := p
    have hp1 : p1 ∈ required.map stripBrackets := (List.of_mem_zip hp).1
    intro heq
    simp only at heq
    exact hdisj (heq ▸ hp1) (List.get_mem _ _ _)

/-- C5: past the arity guard, `execute` hands the handler the
`bindParams` mapping: required names get the leading positionals in
declaration order, optional names get the remaining positionals while
they last, and an optional name beyond the supplied count is absent from
the mapping (no sentinel value). -/
theorem positional_binding_order (cmd : CommandInstance) (possible : String)
    (sess : Session) (se : Option String) (pos : List String)
    (hpos : (parseArgsStringToArgv possible).erase cmd.name = pos)
    (harity : cmd.requiredMatches.length ≤ pos.length)
    (hnd : ((cmd.requiredMatches ++ cmd.optionalMatches).map
      stripBrackets).Nodup) :
    (∀ r, CommandInstance.execute cmd possible sess se = .ok r →
      r.params = bindParams cmd.requiredMatches cmd.optionalMatches pos) ∧
    (∀ (i : Nat) (hi : i < cmd.requiredMatches.length),
      getParam (bindParams cmd.requiredMatches cmd.optionalMatches pos)
          (stripBrackets (cmd.requiredMatches.get ⟨i, hi⟩)) = pos[i]? ∧
      pos[i]?.isSome = true) ∧
    (∀ (j : Nat) (hj : j < cmd.optionalMatches.length),
      getParam (bindParams cmd.requiredMatches cmd.optionalMatches pos)
          (stripBrackets (cmd.optionalMatches.get ⟨j, hj⟩)) =
        if cmd.requiredMatches.length + j < pos.length then
          pos[cmd.requiredMatches.length + j]? else none) := by
  refine ⟨?_, ?_, ?_⟩
  · intro r hr
    have h := execute_ok_params cmd possible sess se r
      (by rw [hpos]; omega) hr
    rw [h.1, hpos]
  · intro i hi
    refine ⟨bindParams_getParam_required _ _ _ hnd harity i hi, ?_⟩
    rw [List.getElem?_eq_getElem (lt_of_lt_of_le hi harity)]
    rfl
  · intro j hj
    rw [bindParams_getParam_optional _ _ _ hnd harity j hj]
    by_cases hrange : cmd.requiredMatches.length + j < pos.length
    · rw [if_pos hrange]
    · rw [if_neg hrange, List.getElem?_eq_none (by omega)]

/-- C5 witness: `t <a> <b> [c]` bound with three and with two
positionals — `{a:

"1", b:"2", c:"3"}` and `{a:"1", b:"2"}` with `c`
absent. -/
theorem positional_binding_order_witness :
    (getParam (bindParams ["<a>", "<b>"] ["[c]"] ["1", "2", "3"]) "a" =
      some "1") ∧
    (getParam (bindParams ["<a>", "<b>"] ["[c]"] ["1", "2", "3"]) "b" =
      some "2") ∧
    (getParam (bindParams ["<a>", "<b>"] ["[c]"] ["1", "2", "3"]) "c" =
      some "3") ∧
    (getParam (bindParams ["<a>", "<b>"] ["[c]"] ["1", "2"]) "a" =
      some "1") ∧
    (getParam (bindParams ["<a>", "<b>"] ["[c]"] ["1", "2"]) "b" =
      some "2") ∧
    (getParam (bindParams ["<a>", "<b>"] ["[c]"] ["1", "2"]) "c" = none) ∧
    (∀ r, CommandInstance.execute
        (CommandInstance.create "t <a> <b> [c]" "binds" []
          (fun _ => .ok none)) "1 2 3"
        ⟨"!t 1 2 3", "chan", "mid", "ava"⟩ none = .ok r →
      r.params = bindParams ["<a>", "<b>"] ["[c]"] ["1", "2", "3"]) := by
  have H3 := positional_binding_order
    (CommandInstance.create "t <a> <b> [c]" "binds" [] (fun _ => .ok none))
    "1 2 3" ⟨"!t 1 2 3", "chan", "mid", "ava"⟩ none ["1", "2", "3"]
    (by decide) (by decide) (by decide)
  have H2 := positional_binding_order
    (CommandInstance.create "t <a> <b> [c]" "binds" [] (fun _ => .ok none))
    "1 2" ⟨"!t 1 2", "chan", "mid", "ava"⟩ none ["1", "2"]
    (by decide) (by decide) (by decide)
  refine ⟨(H3.2.1 0 (by decide)).1, (H3.2.1 1 (by decide)).1,
    H3.2.2 0 (by decide), (H2.2.1 0 (by decide)).1,
    (H2.2.1 1 (by decide)).1, H2.2.2 0 (by decide), H3.1⟩

/-- C9: when no command matches the head exactly, the fuzzy search over
the visible commands keeps only candidates at or above similarity 0.6;
an empty candidate set produces exactly the plain-text 找不到相关指令
reply quoting the trigger (never an empty card), and a non-empty set
produces the structured suggestion card listing each candidate's name
(aliases parenthesized) and description. -/
theorem fuzzy_suggestion_threshold_and_replies (env : DispatchEnv)
    (sess : Session) (hd : String)
    (hpfx : strStartsWith sess.content env.pfx = true)
    (hpre : env.preParse = none)
    (hhd : (splitHeadArgs (sess.content.drop env.pfx.length)).1 = hd)
    (hnone : findCommand hd (meetCommands env.entries) = none) :
    (∀ c ∈ fuzzySearch hd (meetCommands env.entries),
      (3 : ℚ) / 5 ≤ similarity hd c.name) ∧
    (fuzzySearch hd (meetCommands env.entries) = [] →
      Commander.setupCommandParser env sess =
        { sent := [⟨sess.channelId, "找不到相关指令", some sess.msgId, false⟩] }) ∧
    (fuzzySearch hd (meetCommands env.entries) ≠ [] →
      Commander.setupCommandParser env sess =
        { sent := [⟨sess.channelId,
            Commander.CardTemplete
              ((fuzzySearch hd (meetCommands env.entries)).map (fun item =>
                (item.name ++ " " ++
                  (if item.aliases.length != 0 then
                    "(" ++ String.intercalate "," item.aliases ++ ")"
                   else ""),
                 item.description)))
              sess.content sess.avatar,
            some sess.msgId, true⟩] }) := by
  refine ⟨?_, ?_, ?_⟩
  · intro c hc
    simp only [fuzzySearch] at hc
    rw [← meetsThreshold_iff_similarity]
    exact (List.mem_filter.mp hc).2
  · intro hcand
    simp only [Commander.setupCommandParser]
    rw [hpfx, hpre]
    show dispatchCore env sess (sess.content.drop (env.pfx.length)) = _
    simp only [dispatchCore]
    rw [hhd, hnone, hcand]
    rfl
  · intro hcand
    simp only [Commander.setupCommandParser]
    rw [hpfx, hpre]
    show dispatchCore env sess (sess.content.drop (env.pfx.length)) = _
    simp only [dispatchCore]
    rw [hhd, hnone]
    cases hl : fuzzySearch hd (meetCommands env.entries) with
    | nil => exact absurd hl hcand
    | cons a l => rfl

/-- C9 witness: the typo head `geret` is within threshold of `greet`
(similarity 0.8), so the suggestion card for `greet` is sent. -/
theorem fuzzy_suggestion_threshold_and_replies_witness :
    ((3 : ℚ) / 5 ≤ similarity "geret"
      (CommandInstance.create "greet <name>" "greets" []
        (fun _ => .ok (some "hello"))).name) ∧
    Commander.setupCommandParser
        ⟨"!", [(true, [CommandInstance.create "greet <name>" "greets" []
          (fun _ => .ok (some "hello"))])], none, none, none⟩
        ⟨"!geret Alice", "chan", "mid", "ava"⟩ =
      { sent := [⟨"chan",
          Commander.CardTemplete [("greet ", "greets")] "!geret Alice" "ava",
          some "mid", true⟩] } := by
  have H := fuzzy_suggestion_threshold_and_replies
    ⟨"!", [(true, [CommandInstance.create "greet <name>" "greets" []
      (fun _ => .ok (some "hello"))])], none, none, none⟩
    ⟨"!geret Alice", "chan", "mid", "ava"⟩ "geret"
    (by decide) rfl rfl rfl
  refine ⟨H.1 _ (List.mem_singleton_self _), ?_⟩
  exact H.2.2 (fun h => List.noConfusion h)
